import Mathlib

/-!
Verification development for the langfuse-mcp-server repository.

The TypeScript sources are shallowly embedded: JavaScript numbers are
modelled as rationals (ℚ), possibly-absent object fields as `Option`,
JavaScript truthiness (`x || d`) explicitly, `Map` objects as
insertion-ordered association lists, `Array.prototype.sort` (stable) as
`List.insertionSort`, and fallible `await` calls as `Except` values
supplied as inputs.
-/

namespace Langfuse

/-! ## JavaScript value helpers -/

/-- Model of `x || 0` for a possibly-absent numeric field: JS treats
`undefined`, `null` and `0` as falsy, and in all those cases the result
is `0`, which coincides with the field value when it is `0`. -/
def orZero (o : Option ℚ) : ℚ := o.getD 0

/-- JS truthiness of a possibly-absent number: absent (undefined/null)
and `0` are falsy. -/
def jsTruthy (o : Option ℚ) : Bool :=
  match o with
  | none => false
  | some x => decide (x ≠ 0)

/-- JS addition of possibly-absent numbers: if either operand is absent
the JS result is `NaN`, which is falsy wherever this value is consumed;
we model that as `none`. -/
def jsAdd (a b : Option ℚ) : Option ℚ :=
  match a, b with
  | some x, some y => some (x + y)
  | _, _ => none

/-- Model of the JS expression `a || b || 0` over possibly-absent
numbers (as in `usage.totalUsage || usage.inputUsage + usage.outputUsage || 0`). -/
def orChain (a b : Option ℚ) : ℚ :=
  if jsTruthy a then a.getD 0 else if jsTruthy b then b.getD 0 else 0

/-- Model of `Math.round`: round half up (towards +∞), i.e. ⌊x + 1/2⌋. -/
def jsRound (q : ℚ) : ℤ := ⌊q + 1/2⌋

/-! ## Data rows of the daily-metrics and metrics responses
(src/tools/get-cost-analysis.ts) -/

/-- One nested per-model usage row of a `/api/public/metrics/daily` day. -/
structure UsageRow where
  model : Option String
  totalCost : Option ℚ
  totalUsage : Option ℚ
  inputUsage : Option ℚ
  outputUsage : Option ℚ
  countObservations : Option ℚ
deriving Repr, DecidableEq

/-- One day row of the `/api/public/metrics/daily` response. The `date`
field is modelled as the integer timestamp that `new Date(day.date)`
yields; comparisons and sorting in the source only use that value. -/
structure DayRow where
  date : ℤ
  totalCost : Option ℚ
  countTraces : Option ℚ
  usage : Option (List UsageRow)
deriving Repr, DecidableEq

/-- One grouped-by-user row of the `/api/public/metrics` response; the
aggregation-suffixed field names are those the source reads. -/
structure UserSrcRow where
  userId : Option String
  totalCost_sum : Option ℚ
  totalTokens_sum : Option ℚ
  count_count : Option ℚ
deriving Repr, DecidableEq

/-- Validated arguments of `get_cost_analysis` (getCostAnalysisSchema). -/
structure CostArgs where
  fromTs : ℤ
  toTs : ℤ
  includeModelBreakdown : Bool
  includeUserBreakdown : Bool
  includeDailyBreakdown : Bool
  limit : Nat
deriving Repr, DecidableEq

/-- Accumulated per-model aggregate held in the `modelMap` Map. -/
structure ModelAgg where
  cost : ℚ
  tokens : ℚ
  observations : ℚ
deriving Repr, DecidableEq

/-- One row of the produced `byModel` breakdown. -/
structure ModelRow where
  model : String
  cost : ℚ
  tokens : ℚ
  observations : ℚ
  percentage : ℚ
deriving Repr, DecidableEq

/-- One row of the produced `byUser` breakdown. -/
structure UserRow where
  userId : String
  cost : ℚ
  tokens : ℚ
  traces : ℚ
  percentage : ℚ
deriving Repr, DecidableEq

/-- One row of the produced `byDay` breakdown. -/
structure DayOutRow where
  date : ℤ
  cost : ℚ
  tokens : ℚ
  traces : ℚ
deriving Repr, DecidableEq

/-! ## The cost-analysis aggregator (src/tools/get-cost-analysis.ts) -/

/-- `usage.model || 'unknown'`: an absent or empty model name falls back
to the sentinel key. -/
def modelKey (u : UsageRow) : String :=
  match u.model with
  | none => "unknown"
  | some s => if s = "" then "unknown" else s

/-- Token count of one usage row:
`usage.totalUsage || usage.inputUsage + usage.outputUsage || 0`. -/
def usageTokens (u : UsageRow) : ℚ :=
  orChain u.totalUsage (jsAdd u.inputUsage u.outputUsage)

/-- `JS Map.get` on the insertion-ordered association list. -/
def jsMapGet (m : List (String × ModelAgg)) (k : String) : Option ModelAgg :=
  (m.find? (fun p => p.1 = k)).map Prod.snd

/-- `JS Map.set`: replace the value in place when the key exists
(a JS Map never holds a duplicate key), append otherwise. -/
def jsMapSet (m : List (String × ModelAgg)) (k : String) (v : ModelAgg) :
    List (String × ModelAgg) :=
  if (m.map Prod.fst).contains k then
    m.map (fun p => if p.1 = k then (k, v) else p)
  else m ++ [(k, v)]

/-- The body of the inner `day.usage.forEach` loop building `modelMap`. -/
def stepUsage (m : List (String × ModelAgg)) (u : UsageRow) :
    List (String × ModelAgg) :=
  let k := modelKey u
  let e := (jsMapGet m k).getD ⟨0, 0, 0⟩
  jsMapSet m k
    ⟨e.cost + orZero u.totalCost,
     e.tokens + usageTokens u,
     e.observations + orZero u.countObservations⟩

/-- The full `dailyData.forEach` double loop building `modelMap`;
days whose `usage` is absent or not an array are skipped. -/
def buildModelMap (days : List DayRow) : List (String × ModelAgg) :=
  days.foldl (fun m d => (d.usage.getD []).foldl stepUsage m) []

/-- The in-window daily rows: `[]` when the daily fetch threw or its
`data` is absent/not an array, otherwise the rows filtered by
`dayDate >= fromDate && dayDate <= toDate`. -/
def dailyDataOf (args : CostArgs) (resp : Except Unit (Option (List DayRow))) :
    List DayRow :=
  match resp with
  | .error _ => []
  | .ok none => []
  | .ok (some rows) =>
      rows.filter (fun d => decide (args.fromTs ≤ d.date) && decide (d.date ≤ args.toTs))

/-- `totalCost = dailyData.reduce((sum, day) => sum + (day.totalCost || 0), 0)`. -/
def totalCostOf (days : List DayRow) : ℚ :=
  days.foldl (fun s d => s + orZero d.totalCost) 0

/-- Percentage-of-total as computed in the source:
`totalCost > 0 ? Math.round((cost / totalCost) * 100 * 100) / 100 : 0`. -/
def pct (cost total : ℚ) : ℚ :=
  if 0 < total then ((jsRound (cost / total * 100 * 100) : ℚ) / 100) else 0

/-- Ordering used by `.sort((a, b) => b.cost - a.cost)` on model rows. -/
def modelCostGe (a b : ModelRow) : Prop := b.cost ≤ a.cost

instance : DecidableRel modelCostGe := fun a b => inferInstanceAs (Decidable (b.cost ≤ a.cost))

/-- Ordering used by `.sort((a, b) => b.cost - a.cost)` on user rows. -/
def userCostGe (a b : UserRow) : Prop := b.cost ≤ a.cost

instance : DecidableRel userCostGe := fun a b => inferInstanceAs (Decidable (b.cost ≤ a.cost))

/-- Ordering used by the ascending date sort of the daily breakdown. -/
def dayDateLe (a b : DayOutRow) : Prop := a.date ≤ b.date

instance : DecidableRel dayDateLe := fun a b => inferInstanceAs (Decidable (a.date ≤ b.date))

/-- The `byModel` breakdown: aggregate the daily usage rows, compute
percentages, sort by cost descending (stable), truncate to `limit`. -/
def modelBreakdownOf (days : List DayRow) (total : ℚ) (limit : Nat) : List ModelRow :=
  (((buildModelMap days).map (fun p =>
      ModelRow.mk p.1 p.2.cost p.2.tokens p.2.observations (pct p.2.cost total))).insertionSort
        modelCostGe).take limit

/-- The `byUser` breakdown: on a thrown metrics call the catch block
yields `[]`; otherwise rows with a truthy `userId` are kept, read
through the aggregation-suffixed field names, sorted and truncated. -/
def userBreakdownOf (resp : Except Unit (Option (List UserSrcRow))) (total : ℚ)
    (limit : Nat) : List UserRow :=
  match resp with
  | .error _ => []
  | .ok data =>
      let rows := data.getD []
      ((rows.filterMap (fun r =>
          match r.userId with
          | none => none
          | some uid =>
              if uid = "" then none
              else some (UserRow.mk uid (orZero r.totalCost_sum) (orZero r.totalTokens_sum)
                (orZero r.count_count) (pct (orZero r.totalCost_sum) total)))).insertionSort
                  userCostGe).take limit

/-- The `byDay` breakdown: the filtered daily rows themselves, with each
day's token total recomputed from its nested usage rows, sorted by date
ascending. -/
def dayBreakdownOf (days : List DayRow) : List DayOutRow :=
  ((days.map (fun d =>
      DayOutRow.mk d.date (orZero d.totalCost)
        ((d.usage.getD []).foldl (fun s u => s + usageTokens u) 0)
        (orZero d.countTraces))).insertionSort dayDateLe)

/-- The `CostAnalysis` result object. -/
structure CostAnalysis where
  projectId : String
  fromTs : ℤ
  toTs : ℤ
  totalCost : ℚ
  byModel : Option (List ModelRow)
  byUser : Option (List UserRow)
  byDay : Option (List DayOutRow)
deriving Repr, DecidableEq

/-- The embedded `getCostAnalysis` tool handler. Its two backend calls
are supplied as `Except` values: `.error` models the call throwing. -/
def getCostAnalysis (projectId : String) (args : CostArgs)
    (dailyResp : Except Unit (Option (List DayRow)))
    (userResp : Except Unit (Option (List UserSrcRow))) : CostAnalysis :=
  let days := dailyDataOf args dailyResp
  let total := totalCostOf days
  { projectId := projectId
    fromTs := args.fromTs
    toTs := args.toTs
    totalCost := total
    byModel := if args.includeModelBreakdown then some (modelBreakdownOf days total args.limit) else none
    byUser := if args.includeUserBreakdown then some (userBreakdownOf userResp total args.limit) else none
    byDay := if args.includeDailyBreakdown then some (dayBreakdownOf days) else none }

/-! ## The response envelope -/

/-- The MCP tool-response envelope: text content blocks plus an optional
`isError` flag (`none` models the field being absent in the returned
object literal). -/
structure Envelope where
  content : List String
  isError : Option Bool
deriving Repr, DecidableEq

/-- A crude rendering standing in for `JSON.stringify(result, null, 2)`;
the claims never inspect the text itself, only the envelope shape. -/
def renderCostAnalysis (r : CostAnalysis) : String :=
  "projectId=" ++ r.projectId ++ ";totalCost=" ++ toString r.totalCost

/-- The value returned by the `getCostAnalysis` handler:
one text block, no `isError` field. -/
def getCostAnalysisEnvelope (projectId : String) (args : CostArgs)
    (dailyResp : Except Unit (Option (List DayRow)))
    (userResp : Except Unit (Option (List UserSrcRow))) : Envelope :=
  { content := [renderCostAnalysis (getCostAnalysis projectId args dailyResp userResp)]
    isError := none }

/-! ## Configuration resolution (src/config.ts, getProjectConfig) -/

/-- The three environment variables read by `getProjectConfig`;
`none` models an unset variable. -/
structure Env where
  publicKey : Option String
  secretKey : Option String
  baseUrl : Option String
deriving Repr, DecidableEq

/-- The two failure modes of `getProjectConfig`: the missing-keys throw
and the HTTPS-enforcement throw. -/
inductive ConfigFailure where
  | configurationError
  | insecureTransport
deriving Repr, DecidableEq

/-- The resolved project configuration object. -/
structure LangfuseProjectConfig where
  id : String
  baseUrl : String
  publicKey : String
  secretKey : String
deriving Repr, DecidableEq, Inhabited

/-- Model of `s || d` on strings: an unset variable or the empty string
falls back to the default. -/
def jsOrStr (o : Option String) (d : String) : String :=
  match o with
  | none => d
  | some s => if s = "" then d else s

/-- Character-list prefix test. -/
def listIsPre : List Char → List Char → Bool
  | [], _ => true
  | _ :: _, [] => false
  | a :: as, b :: bs => decide (a = b) && listIsPre as bs

/-- Model of `s.startsWith(pre)`. -/
def strStartsWith (s pre : String) : Bool := listIsPre pre.toList s.toList

/-- `publicKey.split('-')[2]?.substring(0, 8) || 'default'`. -/
def projectIdOf (publicKey : String) : String :=
  match (publicKey.splitOn "-").get? 2 with
  | none => "default"
  | some s => if s.take 8 = "" then "default" else s.take 8

/-- The embedded `getProjectConfig`: the missing-key check runs first,
then the HTTPS check on the defaulted base URL. -/
def getProjectConfig (env : Env) : Except ConfigFailure LangfuseProjectConfig :=
  let baseUrl := jsOrStr env.baseUrl "https://cloud.langfuse.com"
  match env.publicKey, env.secretKey with
  | some pk, some sk =>
      if pk = "" ∨ sk = "" then .error .configurationError
      else if strStartsWith baseUrl "https://" then
        .ok ⟨projectIdOf pk, baseUrl, pk, sk⟩
      else .error .insecureTransport
  | _, _ => .error .configurationError

/-! ## URL sanitization for logging (sanitizeUrlForLogging) -/

/-- A URL after `new URL(url)` parsing: the path component and the
ordered list of query parameters. The WHATWG parser itself is a
platform primitive and is not re-modelled; the sanitizer only consumes
`pathname` and `searchParams`. -/
structure ParsedUrl where
  pathname : String
  searchParams : List (String × String)
deriving Repr, DecidableEq

/-- The allow-list of query parameter names kept with their values. -/
def allowedParams : List String := ["limit", "page", "view", "orderBy", "orderDirection"]

/-- The redaction marker substituted for every disallowed value. -/
def redactedMarker : String := "[REDACTED]"

/-- `URLSearchParams.set`: replace the value in place when the key
exists, append otherwise (the result never holds a duplicate key). -/
def paramsSet (m : List (String × String)) (k v : String) : List (String × String) :=
  if (m.map Prod.fst).contains k then
    m.map (fun p => if p.1 = k then (k, v) else p)
  else m ++ [(k, v)]

/-- The sanitization loop: every parameter is re-inserted, allowed ones
with their value, all others with the redaction marker. -/
def sanitizeParams (q : List (String × String)) : List (String × String) :=
  q.foldl (fun acc kv =>
    paramsSet acc kv.1 (if allowedParams.contains kv.1 then kv.2 else redactedMarker)) []

/-- The sanitized URL as a structure: path unchanged, parameters
filtered/redacted. -/
def sanitizeParsed (u : ParsedUrl) : ParsedUrl :=
  ⟨u.pathname, sanitizeParams u.searchParams⟩

/-- `URLSearchParams.toString` (percent-encoding abstracted away). -/
def renderParams (q : List (String × String)) : String :=
  String.intercalate "&" (q.map (fun kv => kv.1 ++ "=" ++ kv.2))

/-- The embedded `sanitizeUrlForLogging` on a successfully parsed URL:
`pathname` followed by the sanitized query string when non-empty. -/
def sanitizeUrlForLogging (u : ParsedUrl) : String :=
  let qs := renderParams (sanitizeParams u.searchParams)
  u.pathname ++ (if qs = "" then "" else "?" ++ qs)

/-! ## Transport error messages (langfuse-client.ts) -/

/-- The exception message thrown by the legacy `listTraces` on a non-2xx
response: it embeds the full request URL and the first 200 characters of
the response body. -/
def oldListTracesErrorMessage (status : Nat) (statusText url errorText : String) : String :=
  "Traces API error: " ++ toString status ++ " " ++ statusText ++ ". URL: " ++ url ++
    ". Response: " ++ errorText.take 200

/-- The exception message thrown by the centralized `handleApiError`:
the handler receives the response body text and the request URL (it
logs them server-side), but the thrown message is built from the
operation label and status code alone. -/
def handleApiErrorMessage (operation : String) (status : Nat)
    (_errorText : String) (_url : Option String) : String :=
  "Failed to " ++ operation.toLower ++ ": API returned status " ++ toString status

/-! ## The call-tool dispatcher (src/index.ts, setupHandlers) -/

/-- The operation names of the registered catalog (the cases of the
dispatcher's switch). -/
def toolNames : List String :=
  ["list_projects", "project_overview", "usage_by_model", "usage_by_service",
   "top_expensive_traces", "get_trace_detail", "get_projects", "get_metrics",
   "get_traces", "get_observations", "get_cost_analysis", "get_daily_metrics",
   "get_observation_detail", "get_health_status", "list_models",
   "get_model_detail", "list_prompts", "get_prompt_detail"]

/-- The embedded call-tool request handler. The whole switch runs inside
one try/catch: a handler body (schema parse plus tool call) is supplied
as an `Except String Envelope`; an unknown name throws and is caught by
the same catch, which wraps the message into an `isError: true`
envelope. The embedding returns an `Envelope` unconditionally — no
exception ever escapes the dispatcher. -/
def dispatchCallTool (handlers : String → Except String Envelope) (name : String) :
    Envelope :=
  if toolNames.contains name then
    match handlers name with
    | .ok e => e
    | .error msg => ⟨["Error: " ++ msg], some true⟩
  else ⟨["Error: Unknown tool: " ++ name], some true⟩

/-! ## Capability mode gate -/

/-- Modelled from the spec: the mode module (`src/mode-config.ts` and the
mode-aware tool registry of v1.4.x) is not present in the source
snapshot — only its tests and documentation are. The spec states two
modes with READONLY the default, catalog filtering that hides mutating
operations in READONLY, and a distinguishing `write_` name prefix on
mutating operations in READWRITE. -/
inductive ServerMode where
  | readonly
  | readwrite
deriving Repr, DecidableEq

/-- Modelled from the spec: one operation descriptor of the catalog,
carrying its `mutating` flag. -/
structure OpDescriptor where
  name : String
  mutating : Bool
deriving Repr, DecidableEq

/-- Modelled from the spec: the mode is fixed once at startup from the
mode selector (`LANGFUSE_MCP_MODE`), READONLY being the default for any
other or missing value; nothing ever writes it afterwards. -/
def getServerMode (envMode : Option String) : ServerMode :=
  match envMode with
  | some "readwrite" => .readwrite
  | _ => .readonly

/-- Modelled from the spec: the operations visible through
`listOperations` — READONLY hides every mutating descriptor, READWRITE
shows all of them with mutating names carrying the `write_` prefix. -/
def listOperations (mode : ServerMode) (catalog : List OpDescriptor) :
    List OpDescriptor :=
  match mode with
  | .readonly => catalog.filter (fun d => !d.mutating)
  | .readwrite => catalog.map (fun d =>
      if d.mutating then ⟨"write_" ++ d.name, true⟩ else d)

/-! ## Shallow-copy semantics of getConfig (langfuse-client.ts) -/

/-- The field names of a configuration object, for modelling mutation
of a returned copy. -/
inductive ConfigField where
  | id
  | baseUrl
  | publicKey
  | secretKey
deriving Repr, DecidableEq

/-- Write one field of a configuration object. -/
def setConfigField (c : LangfuseProjectConfig) (f : ConfigField) (v : String) :
    LangfuseProjectConfig :=
  match f with
  | .id => { c with id := v }
  | .baseUrl => { c with baseUrl := v }
  | .publicKey => { c with publicKey := v }
  | .secretKey => { c with secretKey := v }

/-- An object heap: configuration objects addressed by reference. All
fields of `LangfuseProjectConfig` are primitives, so the spread copy
`{ ...this.config }` is fully captured by copying the record value into
a fresh cell. -/
abbrev Heap := List LangfuseProjectConfig

/-- Read the object at a reference. -/
def heapGet (h : Heap) (r : Nat) : LangfuseProjectConfig :=
  h[r]?.getD default

/-- The embedded `getConfig()`: allocate a fresh cell holding a copy of
the client's configuration and return its reference. -/
def clientGetConfig (h : Heap) (clientRef : Nat) : Heap × Nat :=
  (h ++ [heapGet h clientRef], h.length)

/-- Mutate one field of the object at a reference. -/
def heapSetField (h : Heap) (r : Nat) (f : ConfigField) (v : String) : Heap :=
  List.set h r (setConfigField (heapGet h r) f v)

/-- Apply a sequence of field mutations to the object at a reference. -/
def applyMutations (h : Heap) (r : Nat) (ms : List (ConfigField × String)) : Heap :=
  ms.foldl (fun h' m => heapSetField h' r m.1 m.2) h

/-- The Basic-Auth input string each API call derives from the client's
internal configuration (`publicKey:secretKey`). -/
def authHeaderInput (h : Heap) (clientRef : Nat) : String :=
  (heapGet h clientRef).publicKey ++ ":" ++ (heapGet h clientRef).secretKey

/-! ## Spec-side definitions used to compare the embedding against the
spec's own words -/

/-- The spec's percentage formula, stated from its words:
`round((row.cost / totalCost) * 10000) / 100` when totalCost > 0, else 0,
with half-up rounding. -/
def specPercentage (cost total : ℚ) : ℚ :=
  if 0 < total then ((⌊cost / total * 10000 + 1/2⌋ : ℤ) : ℚ) / 100 else 0

/-- All nested usage rows of a list of day rows, in traversal order. -/
def allUsages (days : List DayRow) : List UsageRow :=
  (days.map (fun d => d.usage.getD [])).flatten

/-- Spec-side per-key cost: the sum of `totalCost || 0` over every usage
row (across all days) whose model key is `k`. -/
def specModelCost (days : List DayRow) (k : String) : ℚ :=
  (((allUsages days).filter (fun u => modelKey u = k)).map (fun u => orZero u.totalCost)).sum

/-- Spec-side per-key token total. -/
def specModelTokens (days : List DayRow) (k : String) : ℚ :=
  (((allUsages days).filter (fun u => modelKey u = k)).map usageTokens).sum

/-- Spec-side per-key observation count. -/
def specModelObs (days : List DayRow) (k : String) : ℚ :=
  (((allUsages days).filter (fun u => modelKey u = k)).map (fun u => orZero u.countObservations)).sum

/-! ## Fixture of E2E scenario A -/

/-- Scenario A, day 1. -/
def dayA1 : DayRow := ⟨1, some 1, none, some [⟨some "gpt-4", some 1, some 100, none, none, none⟩]⟩

/-- Scenario A, day 2. -/
def dayA2 : DayRow := ⟨2, some (5/2), none, some [⟨some "gpt-4", some (5/2), some 250, none, none, none⟩]⟩

/-- Scenario A arguments: a window covering both days, all breakdowns
included, the schema's default limit 20. -/
def argsA : CostArgs := ⟨0, 10, true, true, true, 20⟩

/-- Scenario A daily-source response. -/
def dailyRespA : Except Unit (Option (List DayRow)) := .ok (some [dayA1, dayA2])

/-- Scenario A user-source response (empty, not consulted by the
scenario's expectations). -/
def userRespA : Except Unit (Option (List UserSrcRow)) := .ok (some [])

/-- Scenario A overall result. -/
def resA : CostAnalysis := getCostAnalysis "p" argsA dailyRespA userRespA

/-- Scenario A expected model row. -/
def rowA : ModelRow := ⟨"gpt-4", 7/2, 350, 0, 100⟩

end Langfuse

namespace Langfuse

set_option maxRecDepth 8000

/-! ## General helper lemmas -/

/-- Folding `+ f x` over a list is the sum of the mapped list. -/
theorem foldl_add_map_sum {α : Type} (f : α → ℚ) (l : List α) (a : ℚ) :
    l.foldl (fun s x => s + f x) a = a + (l.map f).sum := by
  induction l generalizing a with
  | nil => simp
  | cons x xs ih => simp [ih, add_assoc]

/-- Concrete evaluation of scenario A: total cost. -/
theorem resA_totalCost : resA.totalCost = 7/2 := by
  norm_num [resA, getCostAnalysis, argsA, dailyDataOf, dailyRespA, dayA1, dayA2,
    totalCostOf, orZero]

/-- Concrete evaluation of scenario A: model breakdown. -/
theorem resA_byModel : resA.byModel = some [rowA] := by
  have hne : ("gpt-4" = "") = False := by simp
  norm_num [resA, getCostAnalysis, argsA, dailyDataOf, dailyRespA, dayA1, dayA2,
    totalCostOf, orZero, rowA, modelBreakdownOf, buildModelMap, stepUsage, jsMapGet,
    jsMapSet, modelKey, usageTokens, orChain, jsTruthy, jsAdd, pct, jsRound,
    List.insertionSort, List.orderedInsert, hne]

/-- The source's percentage expression coincides with the spec's
formula (`* 100 * 100` versus `* 10000`). -/
theorem pct_eq_specPercentage (cost total : ℚ) : pct cost total = specPercentage cost total := by
  unfold pct specPercentage jsRound
  have h : cost / total * 100 * 100 = cost / total * 10000 := by ring
  rw [h]

/-! ## C1: byDay cost sum equals totalCost -/

/-- C1: for every cost-analysis invocation with the daily breakdown
included, the sum of the `cost` fields over the rows of `byDay` equals
`totalCost` exactly — both derive from the same filtered in-window daily
rows, for every daily-source response (including a thrown fetch, zero
rows, or a single row). -/
theorem byDay_cost_sum_eq_totalCost (projectId : String) (args : CostArgs)
    (dailyResp : Except Unit (Option (List DayRow)))
    (userResp : Except Unit (Option (List UserSrcRow)))
    (h : args.includeDailyBreakdown = true) :
    ∃ l, (getCostAnalysis projectId args dailyResp userResp).byDay = some l ∧
      (l.map DayOutRow.cost).sum = (getCostAnalysis projectId args dailyResp userResp).totalCost := by
  refine ⟨dayBreakdownOf (dailyDataOf args dailyResp), by simp [getCostAnalysis, h], ?_⟩
  have hperm : List.Perm (dayBreakdownOf (dailyDataOf args dailyResp))
      ((dailyDataOf args dailyResp).map (fun d =>
        DayOutRow.mk d.date (orZero d.totalCost)
          ((d.usage.getD []).foldl (fun s u => s + usageTokens u) 0)
          (orZero d.countTraces))) :=
    List.perm_insertionSort dayDateLe _
  have hsum := (hperm.map DayOutRow.cost).sum_eq
  rw [hsum]
  simp only [getCostAnalysis, totalCostOf, List.map_map]
  rw [foldl_add_map_sum (fun d => orZero d.totalCost) (dailyDataOf args dailyResp) 0]
  rw [zero_add]
  exact congrArg List.sum (List.map_congr_left (fun d _ => rfl))

/-- Witness for C1 at the scenario A fixture. -/
theorem byDay_cost_sum_eq_totalCost_witness :
    ∃ l, (getCostAnalysis "p" argsA dailyRespA userRespA).byDay = some l ∧
      (l.map DayOutRow.cost).sum = (getCostAnalysis "p" argsA dailyRespA userRespA).totalCost :=
  byDay_cost_sum_eq_totalCost "p" argsA dailyRespA userRespA rfl

/-! ## C2: user-breakdown failure isolation -/

/-- C2: when the user-breakdown source call throws, `byModel` and
`byDay` are exactly what they would be for any non-throwing user
response, `byUser` degrades to the empty sequence, and the returned
envelope is not an error. -/
theorem user_breakdown_failure_isolated (projectId : String) (args : CostArgs)
    (dailyResp : Except Unit (Option (List DayRow))) (e : Unit)
    (userResp' : Except Unit (Option (List UserSrcRow)))
    (h : args.includeUserBreakdown = true) :
    (getCostAnalysis projectId args dailyResp (.error e)).byUser = some [] ∧
    (getCostAnalysis projectId args dailyResp (.error e)).byModel =
      (getCostAnalysis projectId args dailyResp userResp').byModel ∧
    (getCostAnalysis projectId args dailyResp (.error e)).byDay =
      (getCostAnalysis projectId args dailyResp userResp').byDay ∧
    (getCostAnalysisEnvelope projectId args dailyResp (.error e)).isError ≠ some true := by
  refine ⟨?_, rfl, rfl, ?_⟩
  · simp [getCostAnalysis, h, userBreakdownOf]
  · simp [getCostAnalysisEnvelope]

/-- Witness for C2: scenario A daily data with a thrown user call. -/
theorem user_breakdown_failure_isolated_witness :
    (getCostAnalysis "p" argsA dailyRespA (.error ())).byUser = some [] ∧
    (getCostAnalysis "p" argsA dailyRespA (.error ())).byModel =
      (getCostAnalysis "p" argsA dailyRespA userRespA).byModel ∧
    (getCostAnalysis "p" argsA dailyRespA (.error ())).byDay =
      (getCostAnalysis "p" argsA dailyRespA userRespA).byDay ∧
    (getCostAnalysisEnvelope "p" argsA dailyRespA (.error ())).isError ≠ some true :=
  user_breakdown_failure_isolated "p" argsA dailyRespA () userRespA rfl

/-! ## C3: percentage rounding policy -/

/-- C3: every breakdown row produced by the aggregator carries
`percentage = round((cost / totalCost) * 10000) / 100` (half-up) when
`totalCost > 0` and `0` otherwise; in particular cost 33.333 against
total 100 yields 33.33, and cost 0 yields 0 for every total. -/
theorem breakdown_percentage_policy (projectId : String) (args : CostArgs)
    (dailyResp : Except Unit (Option (List DayRow)))
    (userResp : Except Unit (Option (List UserSrcRow))) :
    (∀ row ∈ ((getCostAnalysis projectId args dailyResp userResp).byModel.getD []),
      row.percentage =
        specPercentage row.cost (getCostAnalysis projectId args dailyResp userResp).totalCost) ∧
    (∀ row ∈ ((getCostAnalysis projectId args dailyResp userResp).byUser.getD []),
      row.percentage =
        specPercentage row.cost (getCostAnalysis projectId args dailyResp userResp).totalCost) ∧
    specPercentage (33333/1000) 100 = 3333/100 ∧
    (∀ t : ℚ, specPercentage 0 t = 0) := by
  refine ⟨?_, ?_, ?_, ?_⟩
  · intro row hrow
    rcases hm : args.includeModelBreakdown with _ | _
    · simp [getCostAnalysis, hm] at hrow
    · simp only [getCostAnalysis, hm, if_true, Option.getD_some] at hrow
      have h1 := List.take_subset _ _ hrow
      rw [List.mem_insertionSort] at h1
      rcases List.mem_map.mp h1 with ⟨p, _, hpe⟩
      rw [← hpe]
      exact pct_eq_specPercentage _ _
  · intro row hrow
    rcases hu : args.includeUserBreakdown with _ | _
    · simp [getCostAnalysis, hu] at hrow
    · simp only [getCostAnalysis, hu, if_true, Option.getD_some] at hrow
      rcases userResp with _ | data
      · simp [userBreakdownOf] at hrow
      · simp only [userBreakdownOf] at hrow
        have h1 := List.take_subset _ _ hrow
        rw [List.mem_insertionSort] at h1
        rcases List.mem_filterMap.mp h1 with ⟨src, _, hf⟩
        rcases husr : src.userId with _ | uid
        · rw [husr] at hf; simp at hf
        · rw [husr] at hf
          by_cases hu0 : uid = ""
          · simp [hu0] at hf
          · simp only [hu0, if_false] at hf
            rw [← Option.some_inj.mp hf]
            exact pct_eq_specPercentage _ _
  · norm_num [specPercentage]
  · intro t
    unfold specPercentage
    split
    · norm_num
    · rfl

/-- Witness for C3 at the scenario A model row. -/
theorem breakdown_percentage_policy_witness :
    rowA.percentage = specPercentage rowA.cost (getCostAnalysis "p" argsA dailyRespA userRespA).totalCost :=
  (breakdown_percentage_policy "p" argsA dailyRespA userRespA).1 rowA (by
    show rowA ∈ resA.byModel.getD []
    rw [resA_byModel]
    exact List.mem_singleton.mpr rfl)

/-! ## Association-list lemmas for the JS Map model -/

/-- The zero aggregate used when a model key is first seen. -/
def zeroAgg : ModelAgg := ⟨0, 0, 0⟩

/-- Componentwise aggregate addition. -/
def addAgg (a b : ModelAgg) : ModelAgg :=
  ⟨a.cost + b.cost, a.tokens + b.tokens, a.observations + b.observations⟩

/-- The contribution of one usage row to its model's aggregate. -/
def usageDelta (u : UsageRow) : ModelAgg :=
  ⟨orZero u.totalCost, usageTokens u, orZero u.countObservations⟩

/-- Componentwise sums of the contributions of a usage-row list. -/
def sumAgg (l : List UsageRow) : ModelAgg :=
  ⟨(l.map (fun u => orZero u.totalCost)).sum,
   (l.map usageTokens).sum,
   (l.map (fun u => orZero u.countObservations)).sum⟩

/-- The aggregate the map currently holds for a key (zero when unseen). -/
def aggAt (m : List (String × ModelAgg)) (k : String) : ModelAgg :=
  (jsMapGet m k).getD zeroAgg

theorem addAgg_zero_left (a : ModelAgg) : addAgg zeroAgg a = a := by
  cases a; simp [addAgg, zeroAgg]

theorem addAgg_zero_right (a : ModelAgg) : addAgg a zeroAgg = a := by
  cases a; simp [addAgg, zeroAgg]

theorem addAgg_assoc (a b c : ModelAgg) : addAgg (addAgg a b) c = addAgg a (addAgg b c) := by
  cases a; cases b; cases c; simp [addAgg, add_assoc]

theorem sumAgg_nil : sumAgg [] = zeroAgg := by simp [sumAgg, zeroAgg]

theorem sumAgg_cons (u : UsageRow) (l : List UsageRow) :
    sumAgg (u :: l) = addAgg (usageDelta u) (sumAgg l) := by
  simp [sumAgg, addAgg, usageDelta]

theorem contains_mem_iff (l : List String) (k : String) : l.contains k = true ↔ k ∈ l := by
  rw [List.contains_iff_exists_mem_beq]
  constructor
  · rintro ⟨a, ha, hb⟩
    rwa [(by simpa using hb : k = a)]
  · intro h
    exact ⟨k, h, by simp⟩

theorem find?_replace_mem (m : List (String × ModelAgg)) (k : String) (v : ModelAgg)
    (hc : k ∈ m.map Prod.fst) :
    (m.map (fun p => if p.1 = k then (k, v) else p)).find? (fun p => p.1 = k) = some (k, v) := by
  induction m with
  | nil => simp at hc
  | cons p ps ih =>
    by_cases hpk : p.1 = k
    · simp only [List.map_cons, if_pos hpk]
      exact List.find?_cons_of_pos _ (by simp)
    · have hmem : k ∈ ps.map Prod.fst := by
        rcases List.mem_cons.mp hc with h | h
        · exact absurd h.symm hpk
        · exact h
      simp only [List.map_cons, if_neg hpk]
      rw [List.find?_cons_of_neg _ (by simpa using hpk)]
      exact ih hmem

theorem find?_append_missing (m : List (String × ModelAgg)) (k : String) (v : ModelAgg)
    (hc : k ∉ m.map Prod.fst) :
    ((m ++ [(k, v)]).find? (fun p => p.1 = k)) = some (k, v) := by
  induction m with
  | nil =>
    rw [List.nil_append]
    exact List.find?_cons_of_pos _ (by simp)
  | cons p ps ih =>
    have hpk : ¬ p.1 = k := fun h => hc (by simp [h])
    have hc' : k ∉ ps.map Prod.fst := fun h => hc (by simp [h])
    rw [List.cons_append, List.find?_cons_of_neg _ (by simpa using hpk)]
    exact ih hc'

theorem jsMapGet_set_self (m : List (String × ModelAgg)) (k : String) (v : ModelAgg) :
    jsMapGet (jsMapSet m k v) k = some v := by
  unfold jsMapSet
  split
  · next hc =>
      have hmem : k ∈ m.map Prod.fst := (contains_mem_iff _ _).mp hc
      simp [jsMapGet, find?_replace_mem m k v hmem]
  · next hc =>
      have hmem : k ∉ m.map Prod.fst := fun h => hc ((contains_mem_iff _ _).mpr h)
      simp [jsMapGet, find?_append_missing m k v hmem]

theorem find?_replace_ne (m : List (String × ModelAgg)) (k k' : String) (v : ModelAgg)
    (h : k' ≠ k) :
    (m.map (fun p => if p.1 = k then (k, v) else p)).find? (fun p => p.1 = k') =
      m.find? (fun p => p.1 = k') := by
  induction m with
  | nil => simp
  | cons p ps ih =>
    by_cases hpk : p.1 = k
    · simp only [List.map_cons, if_pos hpk]
      rw [List.find?_cons_of_neg _ (by simpa using fun he : k = k' => h he.symm),
        List.find?_cons_of_neg _ (by simpa using fun he : p.1 = k' => h (hpk ▸ he).symm)]
      exact ih
    · simp only [List.map_cons, if_neg hpk]
      by_cases hpk' : p.1 = k'
      · rw [List.find?_cons_of_pos _ (by simpa using hpk'),
          List.find?_cons_of_pos _ (by simpa using hpk')]
      · rw [List.find?_cons_of_neg _ (by simpa using hpk'),
          List.find?_cons_of_neg _ (by simpa using hpk')]
        exact ih

theorem jsMapGet_set_ne (m : List (String × ModelAgg)) (k k' : String) (v : ModelAgg)
    (h : k' ≠ k) : jsMapGet (jsMapSet m k v) k' = jsMapGet m k' := by
  unfold jsMapSet
  split
  · simp [jsMapGet, find?_replace_ne m k k' v h]
  · unfold jsMapGet
    rw [List.find?_append]
    have h1 : ([((k, v))].find? (fun p => p.1 = k')) = none := by
      rw [List.find?_cons_of_neg _ (by simpa using fun he : k = k' => h he.symm)]
      rfl
    cases hf : m.find? (fun p => p.1 = k') <;> simp [hf, h1]

theorem aggAt_set_self (m : List (String × ModelAgg)) (k : String) (v : ModelAgg) :
    aggAt (jsMapSet m k v) k = v := by
  simp [aggAt, jsMapGet_set_self]

theorem aggAt_set_ne (m : List (String × ModelAgg)) (k k' : String) (v : ModelAgg)
    (h : k' ≠ k) : aggAt (jsMapSet m k v) k' = aggAt m k' := by
  simp [aggAt, jsMapGet_set_ne m k k' v h]

/-- `stepUsage` written through the aggregate vocabulary. -/
theorem stepUsage_eq (m : List (String × ModelAgg)) (u : UsageRow) :
    stepUsage m u = jsMapSet m (modelKey u) (addAgg (aggAt m (modelKey u)) (usageDelta u)) := rfl

/-- Invariant of the inner usage fold: the aggregate at each key grows
by exactly the summed contributions of the processed rows with that key. -/
theorem aggAt_foldl_stepUsage (us : List UsageRow) :
    ∀ (acc : List (String × ModelAgg)) (k : String),
      aggAt (us.foldl stepUsage acc) k =
        addAgg (aggAt acc k) (sumAgg (us.filter (fun u => modelKey u = k))) := by
  induction us with
  | nil => intro acc k; simp [sumAgg_nil, addAgg_zero_right]
  | cons u us ih =>
    intro acc k
    rw [List.foldl_cons, ih]
    by_cases hk : modelKey u = k
    · subst hk
      rw [List.filter_cons_of_pos (by simp), sumAgg_cons, stepUsage_eq, aggAt_set_self,
        addAgg_assoc]
    · rw [List.filter_cons_of_neg (by simpa using hk), stepUsage_eq,
        aggAt_set_ne _ _ _ _ (fun he => hk he.symm)]

/-- The double day/usage loop equals the single fold over all usage rows. -/
theorem buildModelMap_eq_foldl (days : List DayRow) :
    buildModelMap days = (allUsages days).foldl stepUsage [] := by
  suffices h : ∀ acc, days.foldl (fun m d => (d.usage.getD []).foldl stepUsage m) acc =
      (allUsages days).foldl stepUsage acc from h []
  induction days with
  | nil => intro acc; simp [allUsages]
  | cons d ds ih =>
    intro acc
    simp only [List.foldl_cons]
    rw [ih]
    simp [allUsages, List.foldl_append]

/-- Replacing a key's value leaves the key list unchanged. -/
theorem mapKeys_replace (m : List (String × ModelAgg)) (k : String) (v : ModelAgg) :
    (m.map (fun p => if p.1 = k then (k, v) else p)).map Prod.fst = m.map Prod.fst := by
  induction m with
  | nil => simp
  | cons p ps ih =>
    by_cases hpk : p.1 = k
    · simp [hpk, ih]
    · simp [hpk, ih]

theorem nodup_keys_jsMapSet (m : List (String × ModelAgg)) (k : String) (v : ModelAgg)
    (h : (m.map Prod.fst).Nodup) : ((jsMapSet m k v).map Prod.fst).Nodup := by
  unfold jsMapSet
  split
  · rw [mapKeys_replace]; exact h
  · next hc =>
      have hmem : k ∉ m.map Prod.fst := fun hk => hc ((contains_mem_iff _ _).mpr hk)
      simp only [List.map_append, List.map_cons, List.map_nil]
      exact List.nodup_append.mpr ⟨h, List.nodup_singleton k,
        by simpa [List.disjoint_singleton] using hmem⟩

theorem nodup_keys_foldl_stepUsage (us : List UsageRow) :
    ∀ (acc : List (String × ModelAgg)), (acc.map Prod.fst).Nodup →
      ((us.foldl stepUsage acc).map Prod.fst).Nodup := by
  induction us with
  | nil => intro acc h; simpa using h
  | cons u us ih =>
    intro acc h
    rw [List.foldl_cons, stepUsage_eq]
    exact ih _ (nodup_keys_jsMapSet _ _ _ h)

theorem nodup_keys_buildModelMap (days : List DayRow) :
    ((buildModelMap days).map Prod.fst).Nodup := by
  rw [buildModelMap_eq_foldl]
  exact nodup_keys_foldl_stepUsage _ [] (by simp)

theorem jsMapGet_of_mem (m : List (String × ModelAgg)) (k : String) (a : ModelAgg)
    (hnd : (m.map Prod.fst).Nodup) (hm : (k, a) ∈ m) : jsMapGet m k = some a := by
  induction m with
  | nil => simp at hm
  | cons p ps ih =>
    have hnd' : (p.1 :: ps.map Prod.fst).Nodup := by simpa using hnd
    rcases List.mem_cons.mp hm with heq | hmem
    · rw [← heq]
      unfold jsMapGet
      rw [List.find?_cons_of_pos _ (by simp)]
      rfl
    · have hk : ¬ p.1 = k := by
        intro h
        have h1 : k ∈ ps.map Prod.fst := List.mem_map.mpr ⟨(k, a), hmem, rfl⟩
        exact (List.nodup_cons.mp hnd').1 (h ▸ h1)
      unfold jsMapGet
      rw [List.find?_cons_of_neg _ (by simpa using hk)]
      exact ih (List.nodup_cons.mp hnd').2 hmem

/-- Every entry of the built model map holds exactly the spec-side sums
for its key. -/
theorem buildModelMap_entry (days : List DayRow) (k : String) (a : ModelAgg)
    (hm : (k, a) ∈ buildModelMap days) :
    a = ⟨specModelCost days k, specModelTokens days k, specModelObs days k⟩ := by
  have hget := jsMapGet_of_mem _ _ _ (nodup_keys_buildModelMap days) hm
  have ha : aggAt (buildModelMap days) k = a := by simp [aggAt, hget]
  rw [buildModelMap_eq_foldl, aggAt_foldl_stepUsage] at ha
  have hz : aggAt [] k = zeroAgg := by simp [aggAt, jsMapGet]
  rw [hz, addAgg_zero_left] at ha
  rw [← ha]
  rfl

theorem mem_keys_jsMapSet (m : List (String × ModelAgg)) (k₀ k : String) (v : ModelAgg) :
    k ∈ (jsMapSet m k₀ v).map Prod.fst ↔ k ∈ m.map Prod.fst ∨ k = k₀ := by
  unfold jsMapSet
  split
  · next hc =>
      rw [mapKeys_replace]
      constructor
      · exact Or.inl
      · rintro (h | h)
        · exact h
        · subst h
          exact (contains_mem_iff _ _).mp hc
  · simp [List.mem_append]

/-- Completeness of the key set: the built map holds exactly the model
keys occurring among the usage rows. -/
theorem mem_keys_buildModelMap (days : List DayRow) (k : String) :
    k ∈ (buildModelMap days).map Prod.fst ↔ k ∈ (allUsages days).map modelKey := by
  rw [buildModelMap_eq_foldl]
  suffices h : ∀ (us : List UsageRow) (acc : List (String × ModelAgg)) (k : String),
      k ∈ (us.foldl stepUsage acc).map Prod.fst ↔
        k ∈ acc.map Prod.fst ∨ k ∈ us.map modelKey by
    simpa using h (allUsages days) [] k
  intro us
  induction us with
  | nil => intro acc k; simp
  | cons u us ih =>
    intro acc k
    rw [List.foldl_cons, ih, stepUsage_eq, mem_keys_jsMapSet]
    simp only [List.map_cons, List.mem_cons]
    tauto

/-! ## C8: the byModel breakdown aggregates the daily usage rows -/

/-- C8: for every invocation with the model breakdown included, every
row of `byModel` carries exactly the summed cost, tokens and observation
count of the in-window usage rows whose model key (with the `unknown`
sentinel for a missing name) equals the row's model; the aggregation
keys are exactly the occurring model keys; and the scenario A two-day
fixture yields totalCost 3.50 with
byModel = [(gpt-4, 3.50, 350 tokens, 100%)]. -/
theorem byModel_aggregation :
    (∀ (projectId : String) (args : CostArgs)
        (dailyResp : Except Unit (Option (List DayRow)))
        (userResp : Except Unit (Option (List UserSrcRow))),
      args.includeModelBreakdown = true →
      ∃ l, (getCostAnalysis projectId args dailyResp userResp).byModel = some l ∧
        (∀ row ∈ l,
          row.cost = specModelCost (dailyDataOf args dailyResp) row.model ∧
          row.tokens = specModelTokens (dailyDataOf args dailyResp) row.model ∧
          row.observations = specModelObs (dailyDataOf args dailyResp) row.model) ∧
        (∀ k, k ∈ (buildModelMap (dailyDataOf args dailyResp)).map Prod.fst ↔
          k ∈ (allUsages (dailyDataOf args dailyResp)).map modelKey)) ∧
    (resA.totalCost = 7/2 ∧ resA.byModel = some [rowA]) := by
  refine ⟨?_, resA_totalCost, resA_byModel⟩
  intro projectId args dailyResp userResp h
  refine ⟨modelBreakdownOf (dailyDataOf args dailyResp)
    (totalCostOf (dailyDataOf args dailyResp)) args.limit, by simp [getCostAnalysis, h], ?_,
    fun k => mem_keys_buildModelMap (dailyDataOf args dailyResp) k⟩
  intro row hrow
  have h1 := List.take_subset _ _ hrow
  rw [List.mem_insertionSort] at h1
  rcases List.mem_map.mp h1 with ⟨p, hp, hpe⟩
  rcases p with ⟨k, a⟩
  have hentry := buildModelMap_entry (dailyDataOf args dailyResp) k a hp
  rw [← hpe, hentry]
  exact ⟨rfl, rfl, rfl⟩

/-- Witness for C8 at the scenario A fixture. -/
theorem byModel_aggregation_witness :
    ∃ l, (getCostAnalysis "p" argsA dailyRespA userRespA).byModel = some l ∧
      (∀ row ∈ l,
        row.cost = specModelCost (dailyDataOf argsA dailyRespA) row.model ∧
        row.tokens = specModelTokens (dailyDataOf argsA dailyRespA) row.model ∧
        row.observations = specModelObs (dailyDataOf argsA dailyRespA) row.model) ∧
      (∀ k, k ∈ (buildModelMap (dailyDataOf argsA dailyRespA)).map Prod.fst ↔
        k ∈ (allUsages (dailyDataOf argsA dailyRespA)).map modelKey) :=
  byModel_aggregation.1 "p" argsA dailyRespA userRespA rfl

/-! ## C4: HTTPS enforcement in getProjectConfig -/

/-- C4 counterexample: a non-HTTPS base URL with a missing public key
fails with the configuration error (the missing-key check runs first),
not the insecure-transport error the claim requires for every non-HTTPS
base URL. -/
theorem https_claim_counterexample :
    getProjectConfig ⟨none, some "sk-lf-x", some "http://attacker.example"⟩ =
      .error .configurationError ∧
    (Except.error ConfigFailure.configurationError :
        Except ConfigFailure LangfuseProjectConfig) ≠ .error .insecureTransport := by
  exact ⟨rfl, fun h => ConfigFailure.noConfusion (Except.error.inj h)⟩

/-- C4 amended: with both keys present and non-empty, a resolved base
URL not starting with `https://` fails with the insecure-transport
error and an `https://` one succeeds; with either key absent or empty
the resolution fails with the configuration error regardless of the
URL. -/
theorem https_invariant (env : Env) :
    (∀ pk sk, env.publicKey = some pk → pk ≠ "" → env.secretKey = some sk → sk ≠ "" →
      (strStartsWith (jsOrStr env.baseUrl "https://cloud.langfuse.com") "https://" = false →
        getProjectConfig env = .error .insecureTransport) ∧
      (strStartsWith (jsOrStr env.baseUrl "https://cloud.langfuse.com") "https://" = true →
        getProjectConfig env =
          .ok ⟨projectIdOf pk, jsOrStr env.baseUrl "https://cloud.langfuse.com", pk, sk⟩)) ∧
    ((env.publicKey = none ∨ env.publicKey = some "" ∨
        env.secretKey = none ∨ env.secretKey = some "") →
      getProjectConfig env = .error .configurationError) := by
  obtain ⟨epk, esk, eurl⟩ := env
  constructor
  · intro pk sk hpk hpkne hsk hskne
    simp only at hpk hsk
    subst hpk
    subst hsk
    constructor
    · intro hs
      simp [getProjectConfig, hpkne, hskne, hs]
    · intro hs
      simp [getProjectConfig, hpkne, hskne, hs]
  · intro hmiss
    simp only at hmiss
    rcases hmiss with h | h | h | h
    · subst h; rfl
    · subst h
      rcases esk with _ | sk <;> simp [getProjectConfig]
    · subst h
      rcases epk with _ | pk <;> rfl
    · subst h
      rcases epk with _ | pk
      · rfl
      · simp [getProjectConfig]

/-- Witness for the amended C4. -/
theorem https_invariant_witness :
    getProjectConfig ⟨some "pk-lf-abc", some "sk-lf-def", some "http://insecure"⟩ =
      .error .insecureTransport ∧
    getProjectConfig ⟨some "pk-lf-abc", some "sk-lf-def", some "https://ok.example"⟩ =
      .ok ⟨projectIdOf "pk-lf-abc", "https://ok.example", "pk-lf-abc", "sk-lf-def"⟩ :=
  ⟨((https_invariant ⟨some "pk-lf-abc", some "sk-lf-def", some "http://insecure"⟩).1
      "pk-lf-abc" "sk-lf-def" rfl (by decide) rfl (by decide)).1 (by decide),
   ((https_invariant ⟨some "pk-lf-abc", some "sk-lf-def", some "https://ok.example"⟩).1
      "pk-lf-abc" "sk-lf-def" rfl (by decide) rfl (by decide)).2 (by decide)⟩

/-! ## C5: URL sanitization -/

theorem mem_paramsSet (m : List (String × String)) (k v : String) (kv : String × String)
    (h : kv ∈ paramsSet m k v) : kv = (k, v) ∨ kv ∈ m := by
  unfold paramsSet at h
  split at h
  · rcases List.mem_map.mp h with ⟨p, hp, hpe⟩
    by_cases hpk : p.1 = k
    · left
      rw [← hpe, if_pos hpk]
    · right
      rw [← hpe, if_neg hpk]
      exact hp
  · rcases List.mem_append.mp h with h | h
    · right; exact h
    · left; simpa using h

theorem key_mem_paramsSet (m : List (String × String)) (k v k' : String)
    (h : (∃ w, (k', w) ∈ m) ∨ k' = k) : ∃ w, (k', w) ∈ paramsSet m k v := by
  unfold paramsSet
  split
  · next hc =>
      rcases h with ⟨w, hw⟩ | h
      · by_cases hk : k' = k
        · subst hk
          refine ⟨v, List.mem_map.mpr ⟨(k', w), hw, ?_⟩⟩
          rw [if_pos rfl]
        · refine ⟨w, List.mem_map.mpr ⟨(k', w), hw, ?_⟩⟩
          rw [if_neg (fun he : k' = k => hk he)]
      · subst h
        rcases List.mem_map.mp ((contains_mem_iff _ _).mp hc) with ⟨p, hp, hpe⟩
        refine ⟨v, List.mem_map.mpr ⟨p, hp, ?_⟩⟩
        rw [if_pos hpe]
  · rcases h with ⟨w, hw⟩ | h
    · exact ⟨w, List.mem_append_left _ hw⟩
    · subst h
      exact ⟨v, List.mem_append_right _ (by simp)⟩

theorem sanitize_fold_invariant (full : List (String × String)) :
    ∀ (q acc : List (String × String)),
      (∀ p ∈ q, p ∈ full) →
      (∀ kv ∈ acc, (allowedParams.contains kv.1 = true → kv ∈ full) ∧
          (allowedParams.contains kv.1 = false → kv.2 = redactedMarker)) →
      ∀ kv ∈ q.foldl (fun acc kv =>
          paramsSet acc kv.1 (if allowedParams.contains kv.1 then kv.2 else redactedMarker)) acc,
        (allowedParams.contains kv.1 = true → kv ∈ full) ∧
        (allowedParams.contains kv.1 = false → kv.2 = redactedMarker) := by
  intro q
  induction q with
  | nil => intro acc _ hacc kv hkv; exact hacc kv hkv
  | cons p q ih =>
    intro acc hq hacc kv hkv
    rw [List.foldl_cons] at hkv
    refine ih _ (fun x hx => hq x (List.mem_cons_of_mem _ hx)) ?_ kv hkv
    intro kv' hkv'
    rcases mem_paramsSet _ _ _ _ hkv' with heq | hmem
    · subst heq
      by_cases hal : allowedParams.contains p.1 = true
      · rw [if_pos hal]
        refine ⟨fun _ => ?_, fun hf => by rw [hal] at hf; cases hf⟩
        have : (p.1, p.2) = p := rfl
        rw [this]
        exact hq p (List.mem_cons_self _ _)
      · rw [if_neg hal]
        exact ⟨fun ht => absurd ht hal, fun _ => rfl⟩
    · exact hacc kv' hmem

theorem key_fold_preserved (q : List (String × String)) :
    ∀ (acc : List (String × String)) (k' : String), (∃ w, (k', w) ∈ acc) →
      ∃ w, (k', w) ∈ q.foldl (fun acc kv =>
        paramsSet acc kv.1 (if allowedParams.contains kv.1 then kv.2 else redactedMarker)) acc := by
  induction q with
  | nil => intro acc k' h; exact h
  | cons p q ih =>
    intro acc k' h
    rw [List.foldl_cons]
    exact ih _ k' (key_mem_paramsSet _ _ _ _ (Or.inl h))

theorem keys_survive_fold (q₀ : List (String × String)) :
    ∀ (acc : List (String × String)) (kv : String × String), kv ∈ q₀ →
      ∃ w, (kv.1, w) ∈ q₀.foldl (fun acc kv =>
        paramsSet acc kv.1 (if allowedParams.contains kv.1 then kv.2 else redactedMarker)) acc := by
  induction q₀ with
  | nil => intro acc kv h; cases h
  | cons p q ih =>
    intro acc kv h
    rw [List.foldl_cons]
    rcases List.mem_cons.mp h with heq | hmem
    · subst heq
      exact key_fold_preserved q _ kv.1 (key_mem_paramsSet _ _ _ _ (Or.inr rfl))
    · exact ih _ kv hmem

/-- The P7 fixture URL. -/
def urlP7 : ParsedUrl := ⟨"/api/public/traces", [("sessionId", "secret123"), ("limit", "10")]⟩

/-- C5: sanitization preserves the path, keeps allow-listed parameter
values as they occur in the URL, replaces every other value with the
redaction marker, loses no parameter name, and on the P7 fixture keeps
`limit=10` while redacting the `sessionId` value. -/
theorem url_sanitization (u : ParsedUrl) :
    (sanitizeParsed u).pathname = u.pathname ∧
    (∀ kv ∈ (sanitizeParsed u).searchParams,
      (allowedParams.contains kv.1 = true → kv ∈ u.searchParams) ∧
      (allowedParams.contains kv.1 = false → kv.2 = redactedMarker)) ∧
    (∀ kv ∈ u.searchParams, ∃ w, (kv.1, w) ∈ (sanitizeParsed u).searchParams) ∧
    sanitizeUrlForLogging urlP7 = "/api/public/traces?sessionId=[REDACTED]&limit=10" := by
  refine ⟨rfl, ?_, ?_, by decide⟩
  · intro kv hkv
    exact sanitize_fold_invariant u.searchParams u.searchParams [] (fun _ h => h)
      (by simp) kv hkv
  · intro kv hkv
    exact keys_survive_fold u.searchParams [] kv hkv

/-- Witness for C5 at the P7 fixture URL: the `limit` name survives
sanitization. -/
theorem url_sanitization_witness :
    ∃ w, (("limit" : String), w) ∈ (sanitizeParsed urlP7).searchParams :=
  (url_sanitization urlP7).2.2.1 ("limit", "10") (by decide)

/-! ## C6: caller-visible transport error messages -/

/-- C6: the legacy `listTraces` exception message embeds the full URL
and the response body — two runs differing only in the body yield
different messages — while the centralized `handleApiError` message is a
function of the operation label and status code alone, independent of
the body text and URL it receives. -/
theorem transport_error_message_content :
    (oldListTracesErrorMessage 500 "ISE" "https://h/api/public/traces?userId=u1" "secret-a" ≠
      oldListTracesErrorMessage 500 "ISE" "https://h/api/public/traces?userId=u1" "secret-b") ∧
    ("https://h/api/public/traces?userId=u1".toList <:+:
      (oldListTracesErrorMessage 500 "ISE" "https://h/api/public/traces?userId=u1"
        "secret-a").toList) ∧
    ("secret-a".toList <:+:
      (oldListTracesErrorMessage 500 "ISE" "https://h/api/public/traces?userId=u1"
        "secret-a").toList) ∧
    (∀ (operation : String) (status : Nat) (bodyA bodyB : String) (urlA urlB : Option String),
      handleApiErrorMessage operation status bodyA urlA =
        handleApiErrorMessage operation status bodyB urlB) :=
  ⟨by decide, by decide, by decide, fun _ _ _ _ _ _ => rfl⟩

/-! ## C7: dispatcher envelope shape -/

/-- C7 counterexample: a successful invocation dispatched through the
call-tool handler returns the handler's envelope, whose `isError` field
is absent (`none`) — not the `false` value the claim requires every
success to carry. -/
theorem dispatcher_success_counterexample :
    (dispatchCallTool
      (fun _ => .ok (getCostAnalysisEnvelope "p" argsA dailyRespA userRespA))
      "get_cost_analysis").isError = none ∧
    (none : Option Bool) ≠ some false := by
  exact ⟨rfl, by decide⟩

/-- C7 amended: every dispatch returns an envelope (the embedding is a
total function into `Envelope`, mirroring the single try/catch around
the switch): an unknown operation name yields an `isError: true`
envelope naming it unknown, a handler exception yields an
`isError: true` envelope with the message, and a handler success is
returned unchanged — which for this repository's tools carries no
`isError` field rather than `isError: false`. -/
theorem dispatcher_envelope_total (handlers : String → Except String Envelope)
    (name : String) :
    (toolNames.contains name = false →
      dispatchCallTool handlers name = ⟨["Error: Unknown tool: " ++ name], some true⟩) ∧
    (∀ m, toolNames.contains name = true → handlers name = .error m →
      dispatchCallTool handlers name = ⟨["Error: " ++ m], some true⟩) ∧
    (∀ e, toolNames.contains name = true → handlers name = .ok e →
      dispatchCallTool handlers name = e) := by
  refine ⟨fun h => ?_, fun m hc he => ?_, fun e hc he => ?_⟩
  · have h' : name ∉ toolNames := fun hm => by
      rw [(contains_mem_iff toolNames name).mpr hm] at h
      cases h
    simp [dispatchCallTool, h']
  · simp [dispatchCallTool, (contains_mem_iff toolNames name).mp hc, he]
  · simp [dispatchCallTool, (contains_mem_iff toolNames name).mp hc, he]

/-- Witness for the amended C7: a throwing handler and an unknown name. -/
theorem dispatcher_envelope_total_witness :
    dispatchCallTool (fun _ => .error "boom") "get_cost_analysis" =
      ⟨["Error: boom"], some true⟩ ∧
    dispatchCallTool (fun _ => .error "boom") "not_a_tool" =
      ⟨["Error: Unknown tool: not_a_tool"], some true⟩ :=
  ⟨(dispatcher_envelope_total (fun _ => .error "boom") "get_cost_analysis").2.1
      "boom" (by decide) rfl,
   (dispatcher_envelope_total (fun _ => .error "boom") "not_a_tool").1 (by decide)⟩

/-! ## C9: capability-mode visibility -/

/-- C9: in READONLY the visible catalog holds no mutating descriptor;
in READWRITE every descriptor is visible and every mutating one's
externally visible name carries the `write_` prefix; the mode derived at
startup defaults to READONLY. -/
theorem mode_visibility :
    (∀ catalog : List OpDescriptor, ∀ d ∈ listOperations .readonly catalog,
      d.mutating = false) ∧
    (∀ catalog : List OpDescriptor, ∀ d ∈ catalog,
      (if d.mutating then OpDescriptor.mk ("write_" ++ d.name) true else d) ∈
        listOperations .readwrite catalog) ∧
    (∀ catalog : List OpDescriptor, ∀ d ∈ listOperations .readwrite catalog,
      d.mutating = true → ∃ rest, d.name = "write_" ++ rest) ∧
    getServerMode none = .readonly := by
  refine ⟨?_, ?_, ?_, rfl⟩
  · intro catalog d hd
    have := (List.mem_filter.mp hd).2
    simpa using this
  · intro catalog d hd
    exact List.mem_map.mpr ⟨d, hd, rfl⟩
  · intro catalog d hd hmut
    rcases List.mem_map.mp hd with ⟨d₀, _, hde⟩
    by_cases h0 : d₀.mutating
    · rw [← hde, if_pos h0]
      exact ⟨d₀.name, rfl⟩
    · rw [← hde] at hmut
      rw [if_neg h0] at hmut
      exact absurd hmut (by simpa using h0)

/-- Witness for C9 on a two-descriptor catalog. -/
theorem mode_visibility_witness :
    ∃ rest, (OpDescriptor.mk "write_delete_dataset" true).name = "write_" ++ rest :=
  mode_visibility.2.2.1 [⟨"delete_dataset", true⟩] ⟨"write_delete_dataset", true⟩
    (by decide) rfl

/-! ## C10: getConfig returns an isolated copy -/

/-- C10: `getConfig` hands out a fresh copy of the configuration, so
any sequence of field mutations applied to the returned object leaves
the client's internal configuration — and the auth-header input every
subsequent API call derives from it — unchanged. -/
theorem getConfig_copy_isolated (h : Heap) (r : Nat) (ms : List (ConfigField × String))
    (hr : r < h.length) :
    heapGet (applyMutations (clientGetConfig h r).1 (clientGetConfig h r).2 ms) r =
      heapGet h r ∧
    authHeaderInput (applyMutations (clientGetConfig h r).1 (clientGetConfig h r).2 ms) r =
      authHeaderInput h r := by
  have key : ∀ (ms : List (ConfigField × String)) (h' : Heap),
      heapGet (applyMutations h' h.length ms) r = heapGet h' r := by
    intro ms
    induction ms with
    | nil => intro h'; rfl
    | cons m ms ih =>
      intro h'
      have hstep : applyMutations h' h.length (m :: ms) =
          applyMutations (heapSetField h' h.length m.1 m.2) h.length ms := rfl
      rw [hstep, ih]
      unfold heapGet heapSetField
      rw [List.getElem?_set_ne (Nat.ne_of_lt hr).symm]
  have h1 : heapGet (applyMutations (clientGetConfig h r).1 (clientGetConfig h r).2 ms) r =
      heapGet h r := by
    have h2 : (clientGetConfig h r).2 = h.length := rfl
    rw [h2, key ms (clientGetConfig h r).1]
    show heapGet (h ++ [heapGet h r]) r = heapGet h r
    unfold heapGet
    rw [List.getElem?_append_left hr]
  refine ⟨h1, ?_⟩
  unfold authHeaderInput
  rw [h1]

/-- Witness for C10: mutating the copy's public key leaves the client's
configuration untouched. -/
theorem getConfig_copy_isolated_witness :
    heapGet (applyMutations
        (clientGetConfig [⟨"p", "https://x", "pk", "sk"⟩] 0).1
        (clientGetConfig [⟨"p", "https://x", "pk", "sk"⟩] 0).2
        [(ConfigField.publicKey, "evil")]) 0 =
      heapGet [⟨"p", "https://x", "pk", "sk"⟩] 0 ∧
    authHeaderInput (applyMutations
        (clientGetConfig [⟨"p", "https://x", "pk", "sk"⟩] 0).1
        (clientGetConfig [⟨"p", "https://x", "pk", "sk"⟩] 0).2
        [(ConfigField.publicKey, "evil")]) 0 =
      authHeaderInput [⟨"p", "https://x", "pk", "sk"⟩] 0 :=
  getConfig_copy_isolated [⟨"p", "https://x", "pk", "sk"⟩] 0
    [(ConfigField.publicKey, "evil")] (by decide)

end Langfuse
